import Mathlib

/-!
Shallow embedding of `xsdata/formats/dataclass/serializers/xml.py`: the
namespace registry (`Namespaces`), the recursive tree builder
(`render_node` with its helpers `render_vars`, `render_var`,
`set_children`, `set_any_children`, `set_nil_attribute`) and the top
level entry point `render_tree`.  Python `Optional[str]` becomes
`Option String`, the mutable lxml `Element` becomes an explicit
`Element` value threaded through the functions, the mutable
`Namespaces` dataclass becomes an explicitly threaded `Namespaces`
value, and a raised exception becomes `Except Err`.
-/

namespace XsdataXml

/-- Qualified name, lxml `QName`: optional namespace URI and local part. -/
structure QName where
  ns : Option String
  local_name : String
deriving DecidableEq, Repr

/-- Python truthiness of an optional string (`if uri:` / `if prefix:` /
`if parent.text:`): `None` and the empty string are falsy. -/
def truthy : Option String → Bool
  | Option.none => false
  | Option.some s => !(s == "")

/-- Association-list lookup with string keys, mirroring `uri in self.items`
and `self.items[uri]` on a python dict. -/
def lookupStr : List (String × String) → String → Option String
  | [], _ => Option.none
  | (k, v) :: rest, u => if k = u then Option.some v else lookupStr rest u

/-- Python dict insertion: overwrite in place if the key exists, else append. -/
def dictInsert (l : List (String × String)) (k v : String) : List (String × String) :=
  if (lookupStr l k).isSome then
    l.map (fun kv => if kv.1 = k then (k, v) else kv)
  else l ++ [(k, v)]

/-- Modelled from the spec: the well-known-namespace catalog collaborator
(`xsdata.models.enums.Namespace.get_enum`, not under `src/`), a map from
URI to a fixed prefix ("URI → fixed prefix, or not well-known"). -/
def getEnum (uri : String) : Option String :=
  if uri = "http://www.w3.org/2001/XMLSchema" then Option.some "xs"
  else if uri = "http://www.w3.org/2001/XMLSchema-instance" then Option.some "xsi"
  else if uri = "http://www.w3.org/XML/1998/namespace" then Option.some "xml"
  else if uri = "http://www.w3.org/1999/xlink" then Option.some "xlink"
  else Option.none

/-- Modelled from the spec: the instance-metadata (XSI) namespace URI used
by `Namespace.XSI.uri` ("the conventional namespace for cross-cutting
instance attributes such as nil, commonly XSI"). -/
def xsiUri : String := "http://www.w3.org/2001/XMLSchema-instance"

/-- Modelled from the spec: the fixed well-known prefix of the
instance-metadata namespace, `Namespace.XSI.prefix`. -/
def xsiPfx : String := "xsi"

/-- The namespace registry dataclass `Namespaces`: `items` is the
insertion-ordered URI → prefix dict, `auto_ns` the monotonic counter. -/
structure Namespaces where
  items : List (String × String)
  auto_ns : Nat
deriving DecidableEq, Repr

/-- Fresh registry, `Namespaces()`. -/
def Namespaces.empty : Namespaces := ⟨[], 0⟩

/-- `Namespaces.add(uri, prefix=None)`: no-op on a falsy or already
registered URI; otherwise a well-known URI gets its catalog prefix, a
caller-supplied truthy prefix is used as given, and otherwise the prefix
is auto-generated as `ns{auto_ns}` and the counter is incremented. -/
def Namespaces.add (st : Namespaces) (uri : Option String) (pfx : Option String) : Namespaces :=
  match uri with
  | Option.none => st
  | Option.some u =>
    if u = "" then st
    else if (lookupStr st.items u).isSome then st
    else
      match getEnum u with
      | Option.some wk => ⟨st.items ++ [(u, wk)], st.auto_ns⟩
      | Option.none =>
        match pfx with
        | Option.some p =>
          if p = "" then ⟨st.items ++ [(u, "ns" ++ toString st.auto_ns)], st.auto_ns + 1⟩
          else ⟨st.items ++ [(u, p)], st.auto_ns⟩
        | Option.none => ⟨st.items ++ [(u, "ns" ++ toString st.auto_ns)], st.auto_ns + 1⟩

/-- `Namespaces.add_all(ns_map)`: `add(uri, prefix)` for every entry of a
prefix → uri mapping (prefixes may be `None` for the default slot). -/
def Namespaces.add_all : Namespaces → List (Option String × String) → Namespaces
  | st, [] => st
  | st, (p, u) :: rest => Namespaces.add_all (st.add (Option.some u) p) rest

/-- The `prefixes` property: all registered prefixes, truthy ones only. -/
def Namespaces.prefixes (st : Namespaces) : List String :=
  (st.items.map Prod.snd).filter (fun s => !(s == ""))

/-- The `ns_map` property: inverse prefix → uri view built by a dict
comprehension, so a later URI with the same prefix overwrites. -/
def Namespaces.ns_map (st : Namespaces) : List (String × String) :=
  st.items.foldl (fun acc kv => dictInsert acc kv.2 kv.1) []

/-- An lxml element node: tag, ordered attributes, text, tail, ordered
children.  Mutation of an element in the source becomes construction of
an updated value here. -/
inductive Element where
  | mk (tag : QName) (attributes : List (QName × String)) (text : Option String)
       (tail : Option String) (children : List Element)

/-- Tag of an element. -/
def Element.tag : Element → QName
  | .mk t _ _ _ _ => t

/-- Attribute list of an element. -/
def Element.attributes : Element → List (QName × String)
  | .mk _ a _ _ _ => a

/-- Text slot of an element (`element.text`, unset is `None`). -/
def Element.text : Element → Option String
  | .mk _ _ tx _ _ => tx

/-- Tail slot of an element (`element.tail`). -/
def Element.tail : Element → Option String
  | .mk _ _ _ tl _ => tl

/-- Children of an element (`len(element)` is their number). -/
def Element.children : Element → List Element
  | .mk _ _ _ _ c => c

/-- Attribute lookup by qualified name. -/
def attrLookup : List (QName × String) → QName → Option String
  | [], _ => Option.none
  | (k, v) :: rest, q => if k = q then Option.some v else attrLookup rest q

/-- `element.set(key, value)`: overwrite an existing attribute with the
same name, else append it. -/
def Element.setAttrib : Element → QName → String → Element
  | .mk t a tx tl c, k, v =>
    if (attrLookup a k).isSome then
      .mk t (a.map (fun kv => if kv.1 = k then (k, v) else kv)) tx tl c
    else .mk t (a ++ [(k, v)]) tx tl c

/-- `element.text = s` with a string right-hand side. -/
def Element.setText : Element → String → Element
  | .mk t a _ tl c, s => .mk t a (Option.some s) tl c

/-- `element.text = s` with an optional right-hand side (`val.text`). -/
def Element.setTextOpt : Element → Option String → Element
  | .mk t a _ tl c, s => .mk t a s tl c

/-- `element.tail = s`. -/
def Element.setTail : Element → String → Element
  | .mk t a tx _ c, s => .mk t a tx (Option.some s) c

/-- `element.tail = s` with an optional right-hand side (`val.tail`). -/
def Element.setTailOpt : Element → Option String → Element
  | .mk t a tx _ c, s => .mk t a tx s c

/-- `SubElement(parent, ...)` attachment: append a child to the parent. -/
def Element.addChild : Element → Element → Element
  | .mk t a tx tl c, ch => .mk t a tx tl (c ++ [ch])

/-- `Element(qname)`: a fresh element with the given tag and nothing else. -/
def Element.fresh (q : QName) : Element := .mk q [] Option.none Option.none []

/-- Field classification, the mutually exclusive `is_attribute`,
`is_any_attribute`, `is_any_element`, `is_text` flags of `ClassVar`,
with `element` as the default classification of the final else-branch. -/
inductive Cls where
  | element
  | attr
  | text
  | anyElement
  | anyAttr
deriving DecidableEq, Repr

/-- Field descriptor, the `ClassVar` mixin data used by the serializer:
field name, qualified name, declared namespace and nillable flag. -/
structure ClassVar where
  name : String
  qname : QName
  nsUri : Option String
  classification : Cls
  nillable : Bool
deriving DecidableEq, Repr

mutual
/-- A python value the serializer can meet: a primitive carrying its
lexical form, a dataclass instance carrying its descriptor/value pairs
(the Field Descriptor Provider collaborator is modelled as data on the
record), a list, a plain dict of attribute strings, and the wildcard
dataclasses `AnyText` and `AnyElement`. -/
inductive Value where
  | prim (s : String)
  | record (name : String) (nsUri : Option String) (fields : Fields)
  | vlist (items : Values)
  | dict (entries : List (String × String))
  | anyText (text : Option String) (attributes : List (String × String))
            (nsmap : List (Option String × String))
  | anyElement (qname : QName) (text : Option String) (tail : Option String)
               (children : Values)
/-- `Optional` value of one field, `getattr(obj, var.name)`. -/
inductive OptValue where
  | none
  | some (v : Value)
/-- The descriptor/value pairs of a record, `meta.vars` in declared order
zipped with the instance's field values. -/
inductive Fields where
  | nil
  | cons (var : ClassVar) (value : OptValue) (rest : Fields)
/-- A list of values. -/
inductive Values where
  | nil
  | cons (v : Value) (rest : Values)
end

/-- Whether a value is a dataclass instance, `is_dataclass(value)`. -/
def Value.isRecord : Value → Bool
  | .record .. => true
  | _ => false

/-- Whether a value is a plain dict. -/
def Value.isDict : Value → Bool
  | .dict _ => true
  | _ => false

/-- Modelled from the spec: the value-converter collaborator
(`xsdata.formats.converters.to_xml`, not under `src/`), a "pure function
primitive value → lexical text"; a primitive carries its lexical form. -/
def toXml : Value → String
  | .prim s => s
  | _ => ""

/-- Failure of a render: the `SerializerError` raised by the serializer
itself, or a propagated python-level failure from an operation the
design does not defensively validate. -/
inductive Err where
  | serializer (msg : String)
  | attrError
  | typeError
deriving DecidableEq, Repr

/-- The message of the one deliberate raise in `render_node`. -/
def serializerMsg : String := "Text nodes can't be dataclasses!"

/-- The qualified name `QName(Namespace.XSI.uri, "nil")`. -/
def nilQName : QName := ⟨Option.some xsiUri, "nil"⟩

/-- `set_nil_attribute(var, element, namespaces)`: if the field is
nillable and the element has unset text and no children, register the
XSI namespace and set the `nil="true"` attribute. -/
def set_nil_attribute (var : ClassVar) (el : Element) (ns : Namespaces) :
    Element × Namespaces :=
  if var.nillable && el.text.isNone && el.children.isEmpty then
    (el.setAttrib nilQName "true", ns.add (Option.some xsiUri) (Option.some xsiPfx))
  else (el, ns)

/-- `set_attributes(parent, values)`: copy dict entries onto the parent
as attributes, keys taken as plain names, values uncoverted. -/
def set_attributes : Element → List (String × String) → Element
  | el, [] => el
  | el, (k, v) :: rest => set_attributes (el.setAttrib ⟨Option.none, k⟩ v) rest

/-- `set_text(parent, value)`: set the parent's text to the converted value. -/
def set_text (parent : Element) (value : Value) : Element :=
  parent.setText (toXml value)

mutual
/-- The loop body of `set_any_children` over the normalized list: plain
strings become parent text, or the parent's tail when the parent already
has text; `AnyText` overwrites parent text, merges its namespace map and
copies its attributes; `AnyElement` registers its namespace, creates a
child with literal text and tail and recurses into its children; any
other value is skipped by the isinstance dispatch. -/
def set_any_children : Values → Element → Namespaces → Element × Namespaces
  | .nil, parent, ns => (parent, ns)
  | .cons v rest, parent, ns =>
    let r := set_any_child v parent ns
    set_any_children rest r.1 r.2

/-- One item of the `set_any_children` loop. -/
def set_any_child : Value → Element → Namespaces → Element × Namespaces
  | .prim s, parent, ns =>
    if truthy parent.text then (parent.setTail s, ns) else (parent.setText s, ns)
  | .anyText t attrs nsmap, parent, ns =>
    (set_attributes (parent.setTextOpt t) attrs, ns.add_all nsmap)
  | .anyElement q t tl children, parent, ns =>
    let ns1 := ns.add q.ns Option.none
    let sub := Element.mk q [] t tl []
    let r := set_any_nested children sub ns1
    (parent.addChild r.1, r.2)
  | _, parent, ns => (parent, ns)

/-- The recursion of `set_any_children` into `val.children`: each child
is normalized (`value if isinstance(value, list) else [value]`) and fed
back through the loop. -/
def set_any_nested : Values → Element → Namespaces → Element × Namespaces
  | .nil, sub, ns => (sub, ns)
  | .cons c rest, sub, ns =>
    let r := match c with
      | .vlist items => set_any_children items sub ns
      | c2 => set_any_child c2 sub ns
    set_any_nested rest r.1 r.2
end

mutual
/-- `render_node(obj, parent, namespaces)`: a non-dataclass value sets
the parent's text to its converted form; a dataclass instance walks its
field descriptors in declared order. -/
def render_node : Value → Element → Namespaces → Except Err (Element × Namespaces)
  | .record _ _ fields, parent, ns => render_vars fields parent ns
  | v, parent, ns => Except.ok (parent.setText (toXml v), ns)

/-- The field loop of `render_node`, aborting on the first failure. -/
def render_vars : Fields → Element → Namespaces → Except Err (Element × Namespaces)
  | .nil, parent, ns => Except.ok (parent, ns)
  | .cons var ov rest, parent, ns =>
    match render_var var ov parent ns with
    | Except.error e => Except.error e
    | Except.ok r => render_vars rest r.1 r.2

/-- One iteration of the field loop: an absent value is skipped, except
that an absent text-classified field applies `set_nil_attribute` to the
parent; a present value first registers the field namespace (unless the
field is wildcard-element) and then dispatches on the classification. -/
def render_var (var : ClassVar) (ov : OptValue) (parent : Element) (ns : Namespaces) :
    Except Err (Element × Namespaces) :=
  match ov with
  | .none =>
    if var.classification = Cls.text then Except.ok (set_nil_attribute var parent ns)
    else Except.ok (parent, ns)
  | .some value =>
    let ns1 := if var.classification = Cls.anyElement then ns
               else ns.add var.nsUri Option.none
    match var.classification with
    | Cls.attr => Except.ok (parent.setAttrib var.qname (toXml value), ns1)
    | Cls.anyAttr =>
      match value with
      | .dict entries => Except.ok (set_attributes parent entries, ns1)
      | _ => Except.error Err.attrError
    | Cls.anyElement =>
      match value with
      | .vlist items => Except.ok (set_any_children items parent ns1)
      | v => Except.ok (set_any_child v parent ns1)
    | Cls.text =>
      if value.isRecord then Except.error (Err.serializer serializerMsg)
      else Except.ok (set_text parent value, ns1)
    | Cls.element =>
      match value with
      | .vlist items => set_children items var parent ns1
      | v =>
        match render_node v (Element.fresh var.qname) ns1 with
        | Except.error e => Except.error e
        | Except.ok r =>
          let r2 := set_nil_attribute var r.1 r.2
          Except.ok (parent.addChild r2.1, r2.2)

/-- `set_children(parent, value, var, namespaces)` after normalization:
for each item create a `SubElement` named by the field's qualified name,
render the item into it, then apply the nil policy to it. -/
def set_children : Values → ClassVar → Element → Namespaces → Except Err (Element × Namespaces)
  | .nil, _, parent, ns => Except.ok (parent, ns)
  | .cons v rest, var, parent, ns =>
    match render_node v (Element.fresh var.qname) ns with
    | Except.error e => Except.error e
    | Except.ok r =>
      let r2 := set_nil_attribute var r.1 r.2
      set_children rest var (parent.addChild r2.1) r2.2
end

/-- Modelled from the spec: the qualified-name resolution of
`ModelInspect.class_meta` (not under `src/`): "resolve the instance's
type descriptor (explicit namespace override takes precedence over the
type's declared namespace) to obtain the root's qualified name". -/
def class_meta_qname (name : String) (declNs : Option String) (override : Option String) : QName :=
  match override with
  | Option.some u => ⟨Option.some u, name⟩
  | Option.none => ⟨declNs, name⟩

/-- `render_tree(obj, namespace=None)`: resolve the root qualified name,
create a fresh registry seeded with the root namespace, build the tree
with `render_node` starting from `Element(meta.qname)`, and finalize the
namespace declarations (`cleanup_namespaces` with `top_nsmap`), returned
here as the registry's prefix → uri view alongside the root. -/
def render_tree (v : Value) (nsOverride : Option String) :
    Except Err (Element × List (String × String)) :=
  match v with
  | .record name declNs fields =>
    let q := class_meta_qname name declNs nsOverride
    let ns0 := Namespaces.empty.add q.ns Option.none
    match render_node (.record name declNs fields) (Element.fresh q) ns0 with
    | Except.error e => Except.error e
    | Except.ok r => Except.ok (r.1, r.2.ns_map)
  | _ => Except.error Err.typeError

/-! Lemmas about the namespace registry. -/

theorem lookupStr_append_of_some {l : List (String × String)} {u p : String}
    (h : lookupStr l u = Option.some p) (l2 : List (String × String)) :
    lookupStr (l ++ l2) u = Option.some p := by
  induction l with
  | nil => simp [lookupStr] at h
  | cons kv rest ih =>
    obtain ⟨k, v⟩ := kv
    by_cases hk : k = u
    · simpa [lookupStr, hk] using h
    · rw [lookupStr, if_neg hk] at h
      rw [List.cons_append, lookupStr, if_neg hk]
      exact ih h

theorem lookupStr_append_self {l : List (String × String)} {u : String}
    (h : lookupStr l u = Option.none) (v : String) :
    lookupStr (l ++ [(u, v)]) u = Option.some v := by
  induction l with
  | nil => simp [lookupStr]
  | cons kv rest ih =>
    obtain ⟨k, w⟩ := kv
    by_cases hk : k = u
    · simp [lookupStr, hk] at h
    · simp only [lookupStr, List.cons_append, if_neg hk] at h ⊢
      exact ih h

/-- Shape analysis of one `add` call: either the registry is unchanged, or
a single fresh pair is appended for a URI that was not yet registered. -/
theorem add_cases (st : Namespaces) (uri pfx : Option String) :
    st.add uri pfx = st ∨
    ∃ u q, uri = Option.some u ∧ lookupStr st.items u = Option.none ∧
      (st.add uri pfx).items = st.items ++ [(u, q)] := by
  cases uri with
  | none => exact Or.inl rfl
  | some u =>
    by_cases h1 : u = ""
    · exact Or.inl (by simp [Namespaces.add, h1])
    · cases h2 : lookupStr st.items u with
      | some p => exact Or.inl (by simp [Namespaces.add, h1, h2])
      | none =>
        cases hg : getEnum u with
        | some wk =>
          exact Or.inr ⟨u, wk, rfl, h2, by simp [Namespaces.add, h1, h2, hg]⟩
        | none =>
          cases pfx with
          | none =>
            exact Or.inr ⟨u, "ns" ++ toString st.auto_ns, rfl, h2,
              by simp [Namespaces.add, h1, h2, hg]⟩
          | some p =>
            by_cases hp : p = ""
            · exact Or.inr ⟨u, "ns" ++ toString st.auto_ns, rfl, h2,
                by simp [Namespaces.add, h1, h2, hg, hp]⟩
            · exact Or.inr ⟨u, p, rfl, h2,
                by simp [Namespaces.add, h1, h2, hg, hp]⟩

/-- A registration survives any later `add` call (first wins, never
re-mapped). -/
theorem add_preserves {st : Namespaces} {u p : String}
    (h : lookupStr st.items u = Option.some p) (uri pfx : Option String) :
    lookupStr (st.add uri pfx).items u = Option.some p := by
  rcases add_cases st uri pfx with heq | ⟨u2, q, _, _, hitems⟩
  · rw [heq]; exact h
  · rw [hitems]; exact lookupStr_append_of_some h _

/-- A registration survives any later `add_all` call. -/
theorem add_all_preserves {st : Namespaces} {u p : String}
    (h : lookupStr st.items u = Option.some p) (m : List (Option String × String)) :
    lookupStr (st.add_all m).items u = Option.some p := by
  induction m generalizing st with
  | nil => exact h
  | cons e rest ih =>
    obtain ⟨pf, ur⟩ := e
    exact ih (add_preserves h (Option.some ur) pf)

/-- One call against the registry, `add` or `add_all`. -/
inductive NsOp where
  | addOp (uri pfx : Option String)
  | addAllOp (m : List (Option String × String))

/-- Apply one registry call. -/
def applyOp (st : Namespaces) : NsOp → Namespaces
  | .addOp u p => st.add u p
  | .addAllOp m => st.add_all m

/-- Apply a sequence of registry calls. -/
def applyOps : Namespaces → List NsOp → Namespaces
  | st, [] => st
  | st, op :: rest => applyOps (applyOp st op) rest

/-- Whether one `add(uri, prefix)` request triggers the auto-generation
branch: a truthy, unregistered, non-well-known URI with no truthy
caller-supplied prefix. -/
def isAutoReq (st : Namespaces) (uri pfx : Option String) : Bool :=
  match uri with
  | Option.none => false
  | Option.some u =>
    if u = "" then false
    else if (lookupStr st.items u).isSome then false
    else
      match getEnum u with
      | Option.some _ => false
      | Option.none =>
        match pfx with
        | Option.none => true
        | Option.some p => p = ""

/-- Run a list of `add` requests, also collecting, in order, the URIs
that received an auto-generated prefix. -/
def addTrace : Namespaces → List (Option String × Option String) → Namespaces × List String
  | st, [] => (st, [])
  | st, (u, p) :: rest =>
    let tr := addTrace (st.add u p) rest
    if isAutoReq st u p then (tr.1, (u.getD "") :: tr.2) else tr

/-- An auto-triggering request appends the `ns{auto_ns}` pair and bumps
the counter. -/
theorem add_of_auto {st : Namespaces} {uri pfx : Option String}
    (h : isAutoReq st uri pfx = true) :
    ∃ u, uri = Option.some u ∧ lookupStr st.items u = Option.none ∧
      st.add uri pfx = ⟨st.items ++ [(u, "ns" ++ toString st.auto_ns)], st.auto_ns + 1⟩ := by
  cases uri with
  | none => simp [isAutoReq] at h
  | some u =>
    by_cases h1 : u = ""
    · simp [isAutoReq, h1] at h
    · cases h2 : lookupStr st.items u with
      | some p => simp [isAutoReq, h1, h2] at h
      | none =>
        cases hg : getEnum u with
        | some wk => simp [isAutoReq, h1, h2, hg] at h
        | none =>
          refine ⟨u, rfl, h2, ?_⟩
          cases pfx with
          | none => simp [Namespaces.add, h1, h2, hg]
          | some p =>
            simp only [isAutoReq, h1, h2, hg] at h
            simp only [if_neg h1, Option.isSome_none, Bool.false_eq_true,
              if_false, decide_eq_true_eq] at h
            simp [Namespaces.add, h1, h2, hg, h]

/-- A request that does not trigger auto-generation leaves the counter
unchanged. -/
theorem add_counter_of_not_auto {st : Namespaces} {uri pfx : Option String}
    (h : isAutoReq st uri pfx = false) :
    (st.add uri pfx).auto_ns = st.auto_ns := by
  cases uri with
  | none => rfl
  | some u =>
    by_cases h1 : u = ""
    · simp [Namespaces.add, h1]
    · cases h2 : lookupStr st.items u with
      | some p => simp [Namespaces.add, h1, h2]
      | none =>
        cases hg : getEnum u with
        | some wk => simp [Namespaces.add, h1, h2, hg]
        | none =>
          cases pfx with
          | none => simp [isAutoReq, h1, h2, hg] at h
          | some p =>
            by_cases hp : p = ""
            · simp [isAutoReq, h1, h2, hg, hp] at h
            · simp [Namespaces.add, h1, h2, hg, hp]

/-- A registration survives a whole request sequence. -/
theorem addTrace_preserves {st : Namespaces} {u p : String}
    (h : lookupStr st.items u = Option.some p)
    (reqs : List (Option String × Option String)) :
    lookupStr (addTrace st reqs).1.items u = Option.some p := by
  induction reqs generalizing st with
  | nil => exact h
  | cons r rest ih =>
    obtain ⟨ur, pf⟩ := r
    show lookupStr (addTrace st ((ur, pf) :: rest)).1.items u = Option.some p
    unfold addTrace
    by_cases hA : isAutoReq st ur pf = true
    · simpa [hA] using ih (add_preserves h ur pf)
    · simp only [Bool.not_eq_true] at hA
      simpa [hA] using ih (add_preserves h ur pf)

/-- The i-th URI that triggered auto-generation ends up mapped to the
prefix `ns{auto_ns₀ + i}`. -/
theorem addTrace_auto (reqs : List (Option String × Option String)) :
    ∀ (st : Namespaces) (i : Nat) (u : String),
      (addTrace st reqs).2.get? i = Option.some u →
      lookupStr (addTrace st reqs).1.items u =
        Option.some ("ns" ++ toString (st.auto_ns + i)) := by
  induction reqs with
  | nil => intro st i u h; simp [addTrace] at h
  | cons r rest ih =>
    intro st i u hget
    obtain ⟨ur, pf⟩ := r
    by_cases hA : isAutoReq st ur pf = true
    · obtain ⟨u0, hu0, hnone, hadd⟩ := add_of_auto hA
      subst hu0
      have hstep : addTrace st ((Option.some u0, pf) :: rest) =
          ((addTrace (st.add (Option.some u0) pf) rest).1,
           u0 :: (addTrace (st.add (Option.some u0) pf) rest).2) := by
        simp [addTrace, hA]
      rw [hstep] at hget ⊢
      cases i with
      | zero =>
        have hu : u = u0 := by simpa using hget.symm
        subst hu
        have hreg : lookupStr (st.add (Option.some u) pf).items u =
            Option.some ("ns" ++ toString st.auto_ns) := by
          rw [hadd]; exact lookupStr_append_self hnone _
        simpa using addTrace_preserves hreg rest
      | succ j =>
        have hget2 : (addTrace (st.add (Option.some u0) pf) rest).2.get? j =
            Option.some u := by simpa using hget
        have := ih (st.add (Option.some u0) pf) j u hget2
        have hc : (st.add (Option.some u0) pf).auto_ns + j = st.auto_ns + (j + 1) := by
          rw [hadd]
          show st.auto_ns + 1 + j = st.auto_ns + (j + 1)
          omega
        rw [hc] at this
        simpa using this
    · simp only [Bool.not_eq_true] at hA
      have hcnt := add_counter_of_not_auto hA
      have hstep : addTrace st ((ur, pf) :: rest) = addTrace (st.add ur pf) rest := by
        simp [addTrace, hA]
      rw [hstep] at hget ⊢
      have := ih (st.add ur pf) i u hget
      rw [hcnt] at this
      exact this

mutual
/-- Whether a value is free of the shape mismatches the design does not
defensively validate, along the exact traversal of `render_node`: every
wildcard-attribute field reached holds a plain dict. -/
def wtValue : Value → Bool
  | .record _ _ fs => wtFields fs
  | _ => true
/-- Well-shapedness of a field list. -/
def wtFields : Fields → Bool
  | .nil => true
  | .cons var v rest => wtEntry var v && wtFields rest
/-- Well-shapedness of one field entry. -/
def wtEntry (var : ClassVar) : OptValue → Bool
  | .none => true
  | .some value =>
    match var.classification with
    | Cls.anyAttr => value.isDict
    | Cls.element =>
      match value with
      | .vlist items => wtList items
      | v => wtValue v
    | _ => true
/-- Well-shapedness of the items of an element-classified list value. -/
def wtList : Values → Bool
  | .nil => true
  | .cons v rest => wtValue v && wtList rest
end

mutual
/-- Whether the traversal of `render_node` reaches a text-classified
field whose present value is itself a dataclass instance; mirrors
exactly the places the builder recurses into. -/
def hasBadText : Value → Bool
  | .record _ _ fs => hasBadFields fs
  | _ => false
/-- Bad-text search in a field list. -/
def hasBadFields : Fields → Bool
  | .nil => false
  | .cons var v rest => hasBadEntry var v || hasBadFields rest
/-- Bad-text search in one field entry. -/
def hasBadEntry (var : ClassVar) : OptValue → Bool
  | .none => false
  | .some value =>
    match var.classification with
    | Cls.text => value.isRecord
    | Cls.element =>
      match value with
      | .vlist items => hasBadList items
      | v => hasBadText v
    | _ => false
/-- Bad-text search in the items of an element-classified list value. -/
def hasBadList : Values → Bool
  | .nil => false
  | .cons v rest => hasBadText v || hasBadList rest
end

mutual
/-- On well-shaped input, `render_node` fails exactly on a reachable
text-classified dataclass value, and then with the structural
`SerializerError`. -/
theorem render_node_err (v : Value) : ∀ (p : Element) (ns : Namespaces),
    wtValue v = true →
    (hasBadText v = true →
      render_node v p ns = Except.error (Err.serializer serializerMsg)) ∧
    (hasBadText v = false →
      ∃ r, render_node v p ns = Except.ok r) := by
  intro p ns hwt
  match v with
  | .record nm du fs =>
    have h := render_vars_err fs p ns (by simpa [wtValue] using hwt)
    constructor
    · intro hb
      exact (h.1 (by simpa [hasBadText] using hb))
    · intro hb
      exact (h.2 (by simpa [hasBadText] using hb))
  | .prim s => exact ⟨by intro hb; simp [hasBadText] at hb, fun _ => ⟨_, rfl⟩⟩
  | .vlist items => exact ⟨by intro hb; simp [hasBadText] at hb, fun _ => ⟨_, rfl⟩⟩
  | .dict es => exact ⟨by intro hb; simp [hasBadText] at hb, fun _ => ⟨_, rfl⟩⟩
  | .anyText t a m => exact ⟨by intro hb; simp [hasBadText] at hb, fun _ => ⟨_, rfl⟩⟩
  | .anyElement q t tl c => exact ⟨by intro hb; simp [hasBadText] at hb, fun _ => ⟨_, rfl⟩⟩
termination_by 4 * sizeOf v

/-- Field-loop version of `render_node_err`. -/
theorem render_vars_err (fs : Fields) : ∀ (p : Element) (ns : Namespaces),
    wtFields fs = true →
    (hasBadFields fs = true →
      render_vars fs p ns = Except.error (Err.serializer serializerMsg)) ∧
    (hasBadFields fs = false →
      ∃ r, render_vars fs p ns = Except.ok r) := by
  intro p ns hwt
  match fs with
  | .nil => exact ⟨by intro hb; simp [hasBadFields] at hb, fun _ => ⟨_, rfl⟩⟩
  | .cons var ov rest =>
    simp only [wtFields, Bool.and_eq_true] at hwt
    have hv := render_var_err var ov p ns hwt.1
    constructor
    · intro hb
      simp only [hasBadFields, Bool.or_eq_true] at hb
      cases hbe : hasBadEntry var ov with
      | false =>
        have hbr : hasBadFields rest = true := by
          rcases hb with hb | hb
          · rw [hbe] at hb; exact absurd hb (by simp)
          · exact hb
        obtain ⟨⟨el, ns2⟩, hok⟩ := hv.2 hbe
        have hrest := (render_vars_err rest el ns2 hwt.2).1 hbr
        simp [render_vars, hok, hrest]
      | true =>
        have herr := hv.1 hbe
        simp [render_vars, herr]
    · intro hb
      have hb2 := Bool.or_eq_false_iff.mp (by simpa [hasBadFields] using hb)
      obtain ⟨⟨el, ns2⟩, hok⟩ := hv.2 hb2.1
      obtain ⟨r2, hok2⟩ := (render_vars_err rest el ns2 hwt.2).2 hb2.2
      exact ⟨r2, by simp [render_vars, hok, hok2]⟩
termination_by 4 * sizeOf fs + 2

/-- Single-field version of `render_node_err`. -/
theorem render_var_err (var : ClassVar) (ov : OptValue) :
    ∀ (p : Element) (ns : Namespaces),
    wtEntry var ov = true →
    (hasBadEntry var ov = true →
      render_var var ov p ns = Except.error (Err.serializer serializerMsg)) ∧
    (hasBadEntry var ov = false →
      ∃ r, render_var var ov p ns = Except.ok r) := by
  intro p ns hwt
  match ov with
  | .none =>
    refine ⟨by intro hb; simp [hasBadEntry] at hb, fun _ => ?_⟩
    by_cases hc : var.classification = Cls.text
    · exact ⟨_, by simp [render_var, hc]; try rfl⟩
    · exact ⟨_, by simp [render_var, hc]; try rfl⟩
  | .some value =>
    obtain ⟨vn, vq, vns, cls, vnil⟩ := var
    cases cls with
    | attr =>
      exact ⟨by intro hb; simp [hasBadEntry] at hb,
             fun _ => ⟨_, by simp [render_var]; try rfl⟩⟩
    | anyAttr =>
      have hd : value.isDict = true := by simpa [wtEntry] using hwt
      cases value with
      | dict es =>
        exact ⟨by intro hb; simp [hasBadEntry] at hb,
               fun _ => ⟨_, by simp [render_var]; try rfl⟩⟩
      | prim s => simp [Value.isDict] at hd
      | record nm du fs => simp [Value.isDict] at hd
      | vlist items => simp [Value.isDict] at hd
      | anyText t a m => simp [Value.isDict] at hd
      | anyElement q t tl c => simp [Value.isDict] at hd
    | anyElement =>
      refine ⟨by intro hb; simp [hasBadEntry] at hb, fun _ => ?_⟩
      cases value with
      | vlist items => exact ⟨_, by simp [render_var]; try rfl⟩
      | prim s => exact ⟨_, by simp [render_var]; try rfl⟩
      | record nm du fs => exact ⟨_, by simp [render_var]; try rfl⟩
      | dict es => exact ⟨_, by simp [render_var]; try rfl⟩
      | anyText t a m => exact ⟨_, by simp [render_var]; try rfl⟩
      | anyElement q t tl c => exact ⟨_, by simp [render_var]; try rfl⟩
    | text =>
      constructor
      · intro hb
        have hr : value.isRecord = true := by simpa [hasBadEntry] using hb
        simp [render_var, hr]
      · intro hb
        have hr : value.isRecord = false := by simpa [hasBadEntry] using hb
        exact ⟨_, by simp [render_var, hr]; try rfl⟩
    | element =>
      cases value with
      | vlist items =>
        have h := set_children_err items ⟨vn, vq, vns, Cls.element, vnil⟩ p
            (Namespaces.add ns vns Option.none) (by simpa [wtEntry] using hwt)
        constructor
        · intro hb
          have := h.1 (by simpa [hasBadEntry] using hb)
          simp [render_var, this]
        · intro hb
          obtain ⟨r, hok⟩ := h.2 (by simpa [hasBadEntry] using hb)
          exact ⟨r, by simp [render_var, hok]; try rfl⟩
      | record nm du fs =>
        have h := render_node_err (.record nm du fs)
            (Element.fresh vq) (Namespaces.add ns vns Option.none)
            (by simpa [wtEntry] using hwt)
        constructor
        · intro hb
          have := h.1 (by simpa [hasBadEntry] using hb)
          simp [render_var, this]
        · intro hb
          obtain ⟨⟨el, ns2⟩, hok⟩ := h.2 (by simpa [hasBadEntry] using hb)
          exact ⟨_, by simp [render_var, hok]; try rfl⟩
      | prim s =>
        exact ⟨by intro hb; simp [hasBadEntry, hasBadText] at hb,
               fun _ => ⟨_, by simp [render_var, render_node]; try rfl⟩⟩
      | dict es =>
        exact ⟨by intro hb; simp [hasBadEntry, hasBadText] at hb,
               fun _ => ⟨_, by simp [render_var, render_node]; try rfl⟩⟩
      | anyText t a m =>
        exact ⟨by intro hb; simp [hasBadEntry, hasBadText] at hb,
               fun _ => ⟨_, by simp [render_var, render_node]; try rfl⟩⟩
      | anyElement q t tl c =>
        exact ⟨by intro hb; simp [hasBadEntry, hasBadText] at hb,
               fun _ => ⟨_, by simp [render_var, render_node]; try rfl⟩⟩
termination_by 4 * sizeOf ov + 1

/-- Child-loop version of `render_node_err`. -/
theorem set_children_err (items : Values) : ∀ (var : ClassVar) (p : Element)
    (ns : Namespaces), wtList items = true →
    (hasBadList items = true →
      set_children items var p ns = Except.error (Err.serializer serializerMsg)) ∧
    (hasBadList items = false →
      ∃ r, set_children items var p ns = Except.ok r) := by
  intro var p ns hwt
  match items with
  | .nil => exact ⟨by intro hb; simp [hasBadList] at hb, fun _ => ⟨_, rfl⟩⟩
  | .cons v rest =>
    simp only [wtList, Bool.and_eq_true] at hwt
    have hv := render_node_err v (Element.fresh var.qname) ns hwt.1
    constructor
    · intro hb
      simp only [hasBadList, Bool.or_eq_true] at hb
      cases hbe : hasBadText v with
      | false =>
        have hbr : hasBadList rest = true := by
          rcases hb with hb | hb
          · rw [hbe] at hb; exact absurd hb (by simp)
          · exact hb
        obtain ⟨⟨el, ns2⟩, hok⟩ := hv.2 hbe
        have hrest := (set_children_err rest var
            (p.addChild (set_nil_attribute var el ns2).1)
            (set_nil_attribute var el ns2).2 hwt.2).1 hbr
        simp [set_children, hok, hrest]
      | true =>
        have herr := hv.1 hbe
        simp [set_children, herr]
    · intro hb
      have hb2 := Bool.or_eq_false_iff.mp (by simpa [hasBadList] using hb)
      obtain ⟨⟨el, ns2⟩, hok⟩ := hv.2 hb2.1
      obtain ⟨r2, hok2⟩ := (set_children_err rest var
          (p.addChild (set_nil_attribute var el ns2).1)
          (set_nil_attribute var el ns2).2 hwt.2).2 hb2.2
      exact ⟨r2, by simp [set_children, hok, hok2]⟩
termination_by 4 * sizeOf items
end

/-! Lemmas showing the builder never changes the tag of the element it
was handed: it works by in-place mutation of that element. -/

theorem setAttrib_tag (el : Element) (k : QName) (v : String) :
    (el.setAttrib k v).tag = el.tag := by
  cases el with
  | mk t a tx tl c =>
    by_cases h : (attrLookup a k).isSome <;> simp [Element.setAttrib, Element.tag, h]

theorem setText_tag (el : Element) (s : String) : (el.setText s).tag = el.tag := by
  cases el <;> rfl

theorem setTextOpt_tag (el : Element) (s : Option String) :
    (el.setTextOpt s).tag = el.tag := by
  cases el <;> rfl

theorem setTail_tag (el : Element) (s : String) : (el.setTail s).tag = el.tag := by
  cases el <;> rfl

theorem addChild_tag (el ch : Element) : (el.addChild ch).tag = el.tag := by
  cases el <;> rfl

theorem set_attributes_tag (entries : List (String × String)) :
    ∀ (el : Element), (set_attributes el entries).tag = el.tag := by
  induction entries with
  | nil => intro el; rfl
  | cons e rest ih =>
    intro el
    obtain ⟨k, v⟩ := e
    rw [set_attributes, ih, setAttrib_tag]

theorem set_nil_attribute_tag (var : ClassVar) (el : Element) (ns : Namespaces) :
    (set_nil_attribute var el ns).1.tag = el.tag := by
  unfold set_nil_attribute
  split
  · exact setAttrib_tag el nilQName "true"
  · rfl

theorem set_any_child_tag (v : Value) (p : Element) (ns : Namespaces) :
    (set_any_child v p ns).1.tag = p.tag := by
  cases v with
  | prim s =>
    by_cases h : truthy p.text = true
    · simp [set_any_child, h, setTail_tag]
    · simp only [Bool.not_eq_true] at h
      simp [set_any_child, h, setText_tag]
  | anyText t a m => simp [set_any_child, set_attributes_tag, setTextOpt_tag]
  | anyElement q t tl c => simp [set_any_child, addChild_tag]
  | record nm du fs => rfl
  | vlist items => rfl
  | dict es => rfl

theorem set_any_children_tag (items : Values) :
    ∀ (p : Element) (ns : Namespaces), (set_any_children items p ns).1.tag = p.tag := by
  match items with
  | .nil => intro p ns; rfl
  | .cons v rest =>
    intro p ns
    rw [set_any_children, set_any_children_tag rest, set_any_child_tag]

theorem set_children_tag (items : Values) :
    ∀ (var : ClassVar) (p : Element) (ns : Namespaces) (r : Element × Namespaces),
      set_children items var p ns = Except.ok r → r.1.tag = p.tag := by
  match items with
  | .nil =>
    intro var p ns r h
    simp only [set_children] at h
    cases h
    rfl
  | .cons v rest =>
    intro var p ns r h
    rw [set_children] at h
    cases hrn : render_node v (Element.fresh var.qname) ns with
    | error e => rw [hrn] at h; cases h
    | ok r2 =>
      rw [hrn] at h
      have := set_children_tag rest var
        (p.addChild (set_nil_attribute var r2.1 r2.2).1)
        (set_nil_attribute var r2.1 r2.2).2 r h
      rw [this, addChild_tag]

theorem render_var_tag (var : ClassVar) (ov : OptValue) (p : Element)
    (ns : Namespaces) (r : Element × Namespaces)
    (h : render_var var ov p ns = Except.ok r) : r.1.tag = p.tag := by
  match ov with
  | .none =>
    by_cases hc : var.classification = Cls.text
    · simp only [render_var, hc, if_pos] at h
      cases h
      rw [set_nil_attribute_tag]
    · simp only [render_var, hc, if_neg, not_false_iff] at h
      cases h
      rfl
  | .some value =>
    obtain ⟨vn, vq, vns, cls, vnil⟩ := var
    cases cls with
    | attr =>
      simp only [render_var] at h
      cases h
      rw [setAttrib_tag]
    | anyAttr =>
      cases value with
      | dict es =>
        simp only [render_var] at h
        cases h
        rw [set_attributes_tag]
      | prim s => simp [render_var] at h
      | record nm du fs => simp [render_var] at h
      | vlist items => simp [render_var] at h
      | anyText t a m => simp [render_var] at h
      | anyElement q t tl c => simp [render_var] at h
    | text =>
      by_cases hr : value.isRecord = true
      · simp [render_var, hr] at h
      · simp only [Bool.not_eq_true] at hr
        simp only [render_var, hr] at h
        cases h
        rw [set_text, setText_tag]
    | anyElement =>
      cases value with
      | vlist items =>
        simp only [render_var] at h
        cases h
        rw [set_any_children_tag]
      | prim s =>
        simp only [render_var] at h
        cases h
        rw [set_any_child_tag]
      | record nm du fs =>
        simp only [render_var] at h
        cases h
        rw [set_any_child_tag]
      | dict es =>
        simp only [render_var] at h
        cases h
        rw [set_any_child_tag]
      | anyText t a m =>
        simp only [render_var] at h
        cases h
        rw [set_any_child_tag]
      | anyElement q t tl c =>
        simp only [render_var] at h
        cases h
        rw [set_any_child_tag]
    | element =>
      cases value with
      | vlist items =>
        simp only [render_var] at h
        exact set_children_tag items _ _ _ r h
      | prim s =>
        simp only [render_var] at h
        rw [if_neg (by decide : ¬(Cls.element = Cls.anyElement))] at h
        cases hrn : render_node (Value.prim s) (Element.fresh vq)
            (Namespaces.add ns vns Option.none) with
        | error e => rw [hrn] at h; cases h
        | ok r2 =>
          rw [hrn] at h
          cases h
          rw [addChild_tag]
      | record nm du fs =>
        simp only [render_var] at h
        rw [if_neg (by decide : ¬(Cls.element = Cls.anyElement))] at h
        cases hrn : render_node (Value.record nm du fs) (Element.fresh vq)
            (Namespaces.add ns vns Option.none) with
        | error e => rw [hrn] at h; cases h
        | ok r2 =>
          rw [hrn] at h
          cases h
          rw [addChild_tag]
      | dict es =>
        simp only [render_var] at h
        rw [if_neg (by decide : ¬(Cls.element = Cls.anyElement))] at h
        cases hrn : render_node (Value.dict es) (Element.fresh vq)
            (Namespaces.add ns vns Option.none) with
        | error e => rw [hrn] at h; cases h
        | ok r2 =>
          rw [hrn] at h
          cases h
          rw [addChild_tag]
      | anyText t a m =>
        simp only [render_var] at h
        rw [if_neg (by decide : ¬(Cls.element = Cls.anyElement))] at h
        cases hrn : render_node (Value.anyText t a m) (Element.fresh vq)
            (Namespaces.add ns vns Option.none) with
        | error e => rw [hrn] at h; cases h
        | ok r2 =>
          rw [hrn] at h
          cases h
          rw [addChild_tag]
      | anyElement q t tl c =>
        simp only [render_var] at h
        rw [if_neg (by decide : ¬(Cls.element = Cls.anyElement))] at h
        cases hrn : render_node (Value.anyElement q t tl c) (Element.fresh vq)
            (Namespaces.add ns vns Option.none) with
        | error e => rw [hrn] at h; cases h
        | ok r2 =>
          rw [hrn] at h
          cases h
          rw [addChild_tag]

theorem render_vars_tag (fs : Fields) :
    ∀ (p : Element) (ns : Namespaces) (r : Element × Namespaces),
      render_vars fs p ns = Except.ok r → r.1.tag = p.tag := by
  match fs with
  | .nil =>
    intro p ns r h
    simp only [render_vars] at h
    cases h
    rfl
  | .cons var ov rest =>
    intro p ns r h
    rw [render_vars] at h
    cases hrv : render_var var ov p ns with
    | error e => rw [hrv] at h; cases h
    | ok r2 =>
      rw [hrv] at h
      have h2 := render_vars_tag rest r2.1 r2.2 r h
      rw [h2, render_var_tag var ov p ns r2 hrv]

theorem render_node_tag (v : Value) (p : Element) (ns : Namespaces)
    (r : Element × Namespaces) (h : render_node v p ns = Except.ok r) :
    r.1.tag = p.tag := by
  cases v with
  | record nm du fs => exact render_vars_tag fs p ns r h
  | prim s => simp only [render_node] at h; cases h; rw [setText_tag]
  | vlist items => simp only [render_node] at h; cases h; rw [setText_tag]
  | dict es => simp only [render_node] at h; cases h; rw [setText_tag]
  | anyText t a m => simp only [render_node] at h; cases h; rw [setText_tag]
  | anyElement q t tl c => simp only [render_node] at h; cases h; rw [setText_tag]

/-! Helper lemmas about attributes for the nil policy. -/

theorem attrLookup_none_countP (l : List (QName × String)) (q : QName)
    (h : attrLookup l q = Option.none) :
    l.countP (fun kv => kv.1 == q) = 0 := by
  induction l with
  | nil => rfl
  | cons kv rest ih =>
    obtain ⟨k, v⟩ := kv
    by_cases hk : k = q
    · simp [attrLookup, hk] at h
    · rw [attrLookup, if_neg hk] at h
      simp [List.countP_cons, hk, ih h]

theorem setAttrib_attributes {el : Element} {k : QName} (v : String)
    (h : attrLookup el.attributes k = Option.none) :
    (el.setAttrib k v).attributes = el.attributes ++ [(k, v)] := by
  cases el with
  | mk t a tx tl c =>
    simp only [Element.attributes] at h ⊢
    simp [Element.setAttrib, h]

theorem setAttrib_text (el : Element) (k : QName) (v : String) :
    (el.setAttrib k v).text = el.text := by
  cases el with
  | mk t a tx tl c =>
    by_cases h : (attrLookup a k).isSome <;> simp [Element.setAttrib, Element.text, h]

theorem setAttrib_children (el : Element) (k : QName) (v : String) :
    (el.setAttrib k v).children = el.children := by
  cases el with
  | mk t a tx tl c =>
    by_cases h : (attrLookup a k).isSome <;> simp [Element.setAttrib, Element.children, h]

/-! The claims. -/

/-- The wildcard-element value of Scenario C: `["lead ",
AnnotatedElement(name="b", text="bold"), " trail"]`. -/
def c1items : Values :=
  .cons (.prim "lead ")
    (.cons (.anyElement ⟨Option.none, "b"⟩ (Option.some "bold") Option.none .nil)
      (.cons (.prim " trail") .nil))

/-- C1: building the mixed-content sequence `["lead ", AnnotatedElement
(name="b", text="bold"), " trail"]` into an empty parent yields parent
text "lead " and one child `<b>bold</b>` — but the trailing text " trail"
is stored as the PARENT's own tail (`parent.tail = val`), while the
child's tail stays unset, contradicting the claim (and spec) that text
arriving when the parent already has text becomes the tail of the most
recently created child. -/
theorem wildcard_trailing_text_goes_to_parent_tail :
    set_any_children c1items (Element.fresh ⟨Option.none, "p"⟩) Namespaces.empty =
      (Element.mk ⟨Option.none, "p"⟩ [] (Option.some "lead ") (Option.some " trail")
        [Element.mk ⟨Option.none, "b"⟩ [] (Option.some "bold") Option.none []],
       Namespaces.empty) := rfl

/-- The nillable element-classified `color` field of Scenario B. -/
def colorVar : ClassVar :=
  ⟨"color", ⟨Option.none, "color"⟩, Option.none, Cls.element, true⟩

/-- A record instance whose nillable element-classified field is absent. -/
def c2obj : Value := Value.record "Product" Option.none (.cons colorVar .none .nil)

/-- C2 counterexample: rendering a record whose nillable
element-classified `color` field is absent emits NO `color` child and no
attribute at all — the parent comes back exactly as it went in — so the
claimed nil-marked empty `color` element is not produced. -/
theorem absent_nillable_element_emits_nothing_cex :
    render_node c2obj (Element.fresh ⟨Option.none, "Product"⟩) Namespaces.empty =
      Except.ok (Element.mk ⟨Option.none, "Product"⟩ [] Option.none Option.none [],
        Namespaces.empty) := rfl

/-- C2 amended: an absent value on an element-classified field — nillable
or not — is skipped outright by `render_node`: no child element, no nil
attribute, no namespace registration. -/
theorem absent_element_field_skipped (var : ClassVar) (p : Element) (ns : Namespaces)
    (h : var.classification = Cls.element) :
    render_var var OptValue.none p ns = Except.ok (p, ns) := by
  simp [render_var, h]

/-- Witness for `absent_element_field_skipped` at the concrete Scenario B
field. -/
theorem absent_element_field_skipped_witness :
    render_var colorVar OptValue.none (Element.fresh ⟨Option.none, "Product"⟩)
      Namespaces.empty =
      Except.ok (Element.fresh ⟨Option.none, "Product"⟩, Namespaces.empty) :=
  absent_element_field_skipped colorVar _ Namespaces.empty rfl

/-- An absent nillable text-classified field followed by a present
element-classified field. -/
def c3obj : Value := Value.record "Root" Option.none
  (.cons ⟨"value", ⟨Option.none, "value"⟩, Option.none, Cls.text, true⟩ .none
    (.cons ⟨"item", ⟨Option.none, "item"⟩, Option.none, Cls.element, false⟩
      (.some (.prim "x")) .nil))

/-- C3 counterexample: with an absent nillable text field processed
before a present element field, the finished root element has one child
(so it is non-empty) AND still carries the nil attribute, because the nil
check for the text field ran mid-iteration, before later fields added
children. -/
theorem nil_attribute_with_later_children_cex :
    (render_node c3obj (Element.fresh ⟨Option.none, "Root"⟩) Namespaces.empty).toOption.map
      (fun r => (r.1.children.length, attrLookup r.1.attributes nilQName)) =
      Option.some (1, Option.some "true") := rfl

/-- C3 amended: at each point where `set_nil_attribute` is applied (to a
sub-element right after it is fully rendered, or to the parent at the
absent text field's position), an element with no prior nil attribute
ends up with exactly one nil attribute iff the field is nillable and the
element currently has unset text and no children, and its text and
children are untouched; the guarantee is per application point, since
the parent may still gain children from later fields. -/
theorem set_nil_attribute_marks_iff_empty (var : ClassVar) (el : Element)
    (ns : Namespaces) (h : attrLookup el.attributes nilQName = Option.none) :
    ((set_nil_attribute var el ns).1.attributes.countP (fun kv => kv.1 == nilQName) =
      (if var.nillable && el.text.isNone && el.children.isEmpty then 1 else 0)) ∧
    (set_nil_attribute var el ns).1.text = el.text ∧
    (set_nil_attribute var el ns).1.children = el.children := by
  have h0 := attrLookup_none_countP el.attributes nilQName h
  unfold set_nil_attribute
  by_cases hc : (var.nillable && el.text.isNone && el.children.isEmpty) = true
  · rw [if_pos hc]
    refine ⟨?_, setAttrib_text el nilQName "true", setAttrib_children el nilQName "true"⟩
    rw [setAttrib_attributes "true" h, List.countP_append, h0, hc]
    simp
  · rw [if_neg hc]
    simp only [Bool.not_eq_true] at hc
    exact ⟨by simp [hc, h0], rfl, rfl⟩

/-- Witness for `set_nil_attribute_marks_iff_empty` at a concrete
nillable field and empty element. -/
theorem set_nil_attribute_marks_iff_empty_witness :
    ((set_nil_attribute ⟨"value", ⟨Option.none, "value"⟩, Option.none, Cls.text, true⟩
        (Element.fresh ⟨Option.none, "Root"⟩) Namespaces.empty).1.attributes.countP
      (fun kv => kv.1 == nilQName) = 1) := by
  have := set_nil_attribute_marks_iff_empty
    ⟨"value", ⟨Option.none, "value"⟩, Option.none, Cls.text, true⟩
    (Element.fresh ⟨Option.none, "Root"⟩) Namespaces.empty rfl
  simpa using this.1

/-- The registry after a caller-supplied prefix `ns0` followed by an
auto-generated prefix. -/
def c4st : Namespaces :=
  (Namespaces.empty.add (Option.some "urn:a") (Option.some "ns0")).add
    (Option.some "urn:b") Option.none

/-- C4 counterexample: after `add("urn:a", "ns0"); add("urn:b")`, the two
distinct URIs are both registered under the non-default prefix `ns0`
(the caller-supplied prefix is never checked against auto-generated
ones), so prefix-to-URI uniqueness fails. -/
theorem shared_prefix_two_uris_cex :
    lookupStr c4st.items "urn:a" = Option.some "ns0" ∧
    lookupStr c4st.items "urn:b" = Option.some "ns0" ∧
    "urn:a" ≠ "urn:b" :=
  ⟨rfl, rfl, by decide⟩

/-- C4 amended: under any sequence of `add` and `add_all` calls, each
registered URI keeps the single prefix of its first registration for the
registry's lifetime (first wins, never re-mapped); the reverse direction
fails, since distinct URIs may come to share one non-default prefix. -/
theorem uri_first_registration_wins (ops : List NsOp) :
    ∀ (st : Namespaces) (u p : String), lookupStr st.items u = Option.some p →
      lookupStr (applyOps st ops).items u = Option.some p := by
  induction ops with
  | nil => intro st u p h; exact h
  | cons op rest ih =>
    intro st u p h
    cases op with
    | addOp uri pfx => exact ih _ u p (add_preserves h uri pfx)
    | addAllOp m => exact ih _ u p (add_all_preserves h m)

/-- Witness for `uri_first_registration_wins` at a concrete registry and
call sequence that retries the same URI with other prefixes. -/
theorem uri_first_registration_wins_witness :
    lookupStr (applyOps (Namespaces.empty.add (Option.some "urn:a") (Option.some "p1"))
      [NsOp.addOp (Option.some "urn:a") (Option.some "zzz"),
       NsOp.addAllOp [(Option.some "q", "urn:a")]]).items "urn:a" = Option.some "p1" :=
  uri_first_registration_wins _ _ "urn:a" "p1" rfl

/-- C5: on input free of the unvalidated shape mismatches, `render_node`
fails with the structural `SerializerError` exactly when the traversal
meets a text-classified field holding a dataclass instance, and in that
case the whole `render_tree` aborts, returning no tree. -/
theorem serializer_error_iff_text_dataclass (v : Value) (p : Element)
    (ns : Namespaces) (o : Option String) (hwt : wtValue v = true) :
    ((render_node v p ns = Except.error (Err.serializer serializerMsg)) ↔
      hasBadText v = true) ∧
    (hasBadText v = true → ∀ rt, render_tree v o ≠ Except.ok rt) := by
  have h := render_node_err v p ns hwt
  constructor
  · constructor
    · intro he
      cases hb : hasBadText v with
      | true => rfl
      | false =>
        obtain ⟨r, hok⟩ := h.2 hb
        rw [hok] at he
        exact absurd he (by simp)
    · intro hb
      exact h.1 hb
  · intro hb rt
    cases v with
    | record nm du fs =>
      intro hcon
      have h2 := (render_node_err (.record nm du fs)
        (Element.fresh (class_meta_qname nm du o))
        (Namespaces.empty.add (class_meta_qname nm du o).ns Option.none) hwt).1 hb
      simp [render_tree, h2] at hcon
    | prim s => simp [hasBadText] at hb
    | vlist items => simp [hasBadText] at hb
    | dict es => simp [hasBadText] at hb
    | anyText t a m => simp [hasBadText] at hb
    | anyElement q t tl c => simp [hasBadText] at hb

/-- A record whose text-classified field holds another record. -/
def badTextObj : Value := Value.record "T" Option.none
  (.cons ⟨"content", ⟨Option.none, "content"⟩, Option.none, Cls.text, false⟩
    (.some (Value.record "U" Option.none .nil)) .nil)

/-- Witness for `serializer_error_iff_text_dataclass` at a concrete
record with a dataclass in text position. -/
theorem serializer_error_iff_text_dataclass_witness :
    render_node badTextObj (Element.fresh ⟨Option.none, "T"⟩) Namespaces.empty =
      Except.error (Err.serializer serializerMsg) :=
  ((serializer_error_iff_text_dataclass badTextObj
    (Element.fresh ⟨Option.none, "T"⟩) Namespaces.empty Option.none rfl).1).mpr rfl

/-- C6: an unregistered URI with a well-known-catalog entry always
receives the catalog's fixed prefix, whatever prefix the caller
supplied. -/
theorem well_known_uri_overrides_caller_prefix (st : Namespaces) (u : String)
    (anyPfx : Option String) (wkp : String)
    (hwk : getEnum u = Option.some wkp)
    (hnew : lookupStr st.items u = Option.none) (hne : u ≠ "") :
    lookupStr (st.add (Option.some u) anyPfx).items u = Option.some wkp := by
  have hstep : st.add (Option.some u) anyPfx = ⟨st.items ++ [(u, wkp)], st.auto_ns⟩ := by
    simp [Namespaces.add, hne, hnew, hwk]
  rw [hstep]
  exact lookupStr_append_self hnew wkp

/-- Witness for `well_known_uri_overrides_caller_prefix` at the XSI URI
with a conflicting caller prefix. -/
theorem well_known_uri_overrides_caller_prefix_witness :
    lookupStr (Namespaces.empty.add (Option.some xsiUri) (Option.some "zzz")).items xsiUri =
      Option.some "xsi" :=
  well_known_uri_overrides_caller_prefix Namespaces.empty xsiUri
    (Option.some "zzz") "xsi" rfl rfl (by decide)

/-- C7: running any request sequence against a fresh registry, the i-th
URI that triggers auto-generation (unregistered, non-well-known, no
truthy caller prefix), counted from zero in first-encountered order,
ends up registered under the prefix `ns{i}`. -/
theorem auto_prefix_first_encounter_order
    (reqs : List (Option String × Option String)) (i : Nat) (u : String)
    (h : (addTrace Namespaces.empty reqs).2.get? i = Option.some u) :
    lookupStr (addTrace Namespaces.empty reqs).1.items u =
      Option.some ("ns" ++ toString i) := by
  have := addTrace_auto reqs Namespaces.empty i u h
  simpa [Namespaces.empty] using this

/-- Witness for `auto_prefix_first_encounter_order`: the second
auto-named URI of a concrete sequence gets `ns1`. -/
theorem auto_prefix_first_encounter_order_witness :
    lookupStr (addTrace Namespaces.empty
      [(Option.some "urn:x", Option.none), (Option.some "urn:y", Option.none)]).1.items
      "urn:y" = Option.some "ns1" := by
  have := auto_prefix_first_encounter_order
    [(Option.some "urn:x", Option.none), (Option.some "urn:y", Option.none)] 1 "urn:y" rfl
  exact this

/-- The serializer dataclass configuration (`xml_declaration`,
`encoding`, `pretty_print`), which only shapes textual output. -/
structure XmlSerializer where
  xml_declaration : Bool
  encoding : String
  pretty_print : Bool

/-- Models calling `render_tree` while the registry of an earlier render
still exists and through an arbitrary serializer configuration: the
source constructs a fresh `Namespaces()` at every call and reads no
serializer state in `render_tree`, so neither can flow into the result;
accordingly the body is `render_tree` itself, with no channel for the
extra arguments. -/
def render_tree_from (leftover : Namespaces) (self : XmlSerializer) (v : Value)
    (nsOverride : Option String) : Except Err (Element × List (String × String)) :=
  render_tree v nsOverride

/-- C8: two successive `render_tree` calls on the same instance produce
identical trees and namespace declarations: whatever registry an earlier
call left behind and whatever serializer configuration is in effect, the
result only depends on the instance and the namespace override. -/
theorem render_tree_independent_of_prior_state (w1 w2 : Namespaces)
    (s1 s2 : XmlSerializer) (v : Value) (o : Option String) :
    render_tree_from w1 s1 v o = render_tree_from w2 s2 v o ∧
    render_tree_from w1 s1 v o = render_tree v o :=
  ⟨rfl, rfl⟩

/-- C9: `set_nil_attribute` only treats a literally unset (`None`) text
slot as "no text": an element whose text is the empty string is left
untouched — no nil attribute — even for a nillable field with no
children. -/
theorem empty_string_text_suppresses_nil (var : ClassVar) (el : Element)
    (ns : Namespaces) (hnil : var.nillable = true)
    (htext : el.text = Option.some "") (hch : el.children = []) :
    set_nil_attribute var el ns = (el, ns) := by
  simp [set_nil_attribute, htext]

/-- Witness for `empty_string_text_suppresses_nil` at a concrete empty
string text element. -/
theorem empty_string_text_suppresses_nil_witness :
    set_nil_attribute ⟨"value", ⟨Option.none, "value"⟩, Option.none, Cls.text, true⟩
      (Element.mk ⟨Option.none, "e"⟩ [] (Option.some "") Option.none [])
      Namespaces.empty =
      (Element.mk ⟨Option.none, "e"⟩ [] (Option.some "") Option.none [],
       Namespaces.empty) :=
  empty_string_text_suppresses_nil _ _ _ rfl rfl rfl

/-- C10: `render_node` hands back the very element it was given, mutated
in place — observably, the returned element keeps the tag of the parent
argument in every branch — and therefore the root that `render_tree`
returns is always the element created under the resolved qualified name
of the instance's type. -/
theorem render_node_returns_given_parent :
    (∀ (v : Value) (p : Element) (ns : Namespaces) (r : Element × Namespaces),
      render_node v p ns = Except.ok r → r.1.tag = p.tag) ∧
    (∀ (nm : String) (declNs o : Option String) (fs : Fields)
      (rt : Element × List (String × String)),
      render_tree (Value.record nm declNs fs) o = Except.ok rt →
      rt.1.tag = class_meta_qname nm declNs o) := by
  refine ⟨render_node_tag, ?_⟩
  intro nm declNs o fs rt h
  simp only [render_tree] at h
  cases hrn : render_node (Value.record nm declNs fs)
      (Element.fresh (class_meta_qname nm declNs o))
      (Namespaces.empty.add (class_meta_qname nm declNs o).ns Option.none) with
  | error e => rw [hrn] at h; cases h
  | ok r =>
    rw [hrn] at h
    cases h
    have := render_node_tag (Value.record nm declNs fs)
      (Element.fresh (class_meta_qname nm declNs o))
      (Namespaces.empty.add (class_meta_qname nm declNs o).ns Option.none) r hrn
    simpa [Element.fresh, Element.tag] using this

/-- Witness for `render_node_returns_given_parent` at a concrete leaf
value and a concrete root record. -/
theorem render_node_returns_given_parent_witness :
    (((Element.fresh ⟨Option.none, "w"⟩).setText "x").tag =
      (Element.fresh (⟨Option.none, "w"⟩ : QName)).tag) ∧
    ((Element.fresh ⟨Option.some "urn:r", "R"⟩).tag =
      class_meta_qname "R" (Option.some "urn:r") Option.none) :=
  ⟨render_node_returns_given_parent.1 (Value.prim "x")
      (Element.fresh ⟨Option.none, "w"⟩) Namespaces.empty
      ((Element.fresh ⟨Option.none, "w"⟩).setText "x", Namespaces.empty) rfl,
   render_node_returns_given_parent.2 "R" (Option.some "urn:r") Option.none .nil
      (Element.fresh ⟨Option.some "urn:r", "R"⟩, [("ns0", "urn:r")]) rfl⟩

end XsdataXml
